import Mathlib

/-!
Verification of the Skyflow-for-AWS-Lambda adapter against its specification.

The development shallowly embeds the JavaScript sources:

* `src/lambda/skyflow-client.js` — the batched operation dispatcher
  (`tokenize`, `tokenizeByot`, `detokenize` share one split/invoke/reassemble
  loop, modelled once as `dispatch`), the per-token detokenize request
  construction (`buildDetokenizeData`), the query result cleaning
  (`queryModel`), the client cache (`getClient`), and the effective batch
  size computation (`effBatchSize`).
* `src/lambda/snowflake-handler.js` — the row-indexed transport adapter
  (`handleTokenizeRows`, `handleDetokenizeRows`).
* `src/lambda/handler.js` — the BYOT request validator
  (`validateTokenizeByotRequest`).
* `src/lambda/utils/headers.js` — the case-insensitive header lookup
  (`getHeader`).

Backend calls are opaque: a per-batch invocation is an arbitrary function
`List ρ → Except String (BatchResult α ε)`; a JavaScript rejection is the
`Except.error` case.  JavaScript `null`/`undefined` values are `Option.none`.
-/

/-- Result of one per-batch backend invocation, as returned by
`_tokenizeBatch` / `_tokenizeByotBatch` / `_detokenizeBatch`:
a `data` array and an `errors` array that may be `null` (`none`). -/
structure BatchResult (α ε : Type) where
  data : List α
  errors : Option (List ε)
deriving Repr, DecidableEq

/-- The effect of `if (batchResult.errors) errors.push(...batchResult.errors)`:
a `null` errors field contributes nothing, a present array contributes its
elements. -/
def errsToList : Option (List ε) → List ε
  | none => []
  | some l => l

/-- The chunking loop
`for (let i = 0; i < items.length; i += batchSize) batches.push(items.slice(i, i + batchSize))`
from `skyflow-client.js` (lines 100-103, 203-206, 353-356).  The `B = 0`
guard is only there to make the definition total; the JavaScript loop would
not terminate for `B = 0`, and every theorem below assumes `0 < B`. -/
def chunksOf (B : Nat) : List α → List (List α)
  | [] => []
  | a :: rest =>
    if _hB : B = 0 then []
    else (a :: rest).take B :: chunksOf B ((a :: rest).drop B)
termination_by l => l.length
decreasing_by
  simp only [List.length_drop, List.length_cons]
  omega

theorem chunksOf_nil (B : Nat) : chunksOf B ([] : List α) = [] := by
  simp [chunksOf]

theorem chunksOf_cons (B : Nat) (hB : 0 < B) (a : α) (rest : List α) :
    chunksOf B (a :: rest) =
      (a :: rest).take B :: chunksOf B ((a :: rest).drop B) := by
  rw [chunksOf]
  simp [Nat.pos_iff_ne_zero.mp hB]

theorem chunksOf_eq (B : Nat) (hB : 0 < B) (l : List α) (hl : l ≠ []) :
    chunksOf B l = l.take B :: chunksOf B (l.drop B) := by
  cases l with
  | nil => exact absurd rfl hl
  | cons a rest => exact chunksOf_cons B hB a rest

/-- The chunks concatenate back to the input list. -/
theorem chunksOf_flatten (B : Nat) (hB : 0 < B) :
    ∀ (n : Nat) (l : List α), l.length ≤ n → (chunksOf B l).flatten = l := by
  intro n
  induction n with
  | zero =>
    intro l h
    have : l = [] := List.eq_nil_of_length_eq_zero (Nat.le_zero.mp h)
    subst this
    simp [chunksOf_nil]
  | succ n ih =>
    intro l h
    by_cases hl : l = []
    · subst hl; simp [chunksOf_nil]
    · rw [chunksOf_eq B hB l hl]
      have hlen : 0 < l.length := List.length_pos.mpr hl
      have hdrop : (l.drop B).length ≤ n := by
        simp only [List.length_drop]; omega
      simp only [List.flatten_cons, ih (l.drop B) hdrop]
      exact List.take_append_drop B l

/-- Every chunk has at most `B` elements. -/
theorem chunksOf_length_le (B : Nat) (hB : 0 < B) :
    ∀ (n : Nat) (l : List α), l.length ≤ n →
      ∀ c ∈ chunksOf B l, c.length ≤ B := by
  intro n
  induction n with
  | zero =>
    intro l h c hc
    have : l = [] := List.eq_nil_of_length_eq_zero (Nat.le_zero.mp h)
    subst this
    simp [chunksOf_nil] at hc
  | succ n ih =>
    intro l h c hc
    by_cases hl : l = []
    · subst hl; simp [chunksOf_nil] at hc
    · rw [chunksOf_eq B hB l hl] at hc
      have hlen : 0 < l.length := List.length_pos.mpr hl
      rcases List.mem_cons.mp hc with h1 | h1
      · subst h1
        have := List.length_take B l
        omega
      · exact ih (l.drop B) (by simp only [List.length_drop]; omega) c h1

/-- The number of chunks is `⌈l.length / B⌉`, written `(l.length + B - 1) / B`. -/
theorem chunksOf_count (B : Nat) (hB : 0 < B) :
    ∀ (n : Nat) (l : List α), l.length ≤ n →
      (chunksOf B l).length = (l.length + B - 1) / B := by
  intro n
  induction n with
  | zero =>
    intro l h
    have h0 : l = [] := List.eq_nil_of_length_eq_zero (Nat.le_zero.mp h)
    subst h0
    have h1 : (B - 1) / B = 0 := Nat.div_eq_of_lt (by omega)
    simp [chunksOf_nil]
    omega
  | succ n ih =>
    intro l h
    by_cases hl : l = []
    · subst hl
      have h1 : (B - 1) / B = 0 := Nat.div_eq_of_lt (by omega)
      simp [chunksOf_nil]
      omega
    · rw [chunksOf_eq B hB l hl]
      have hlen : 0 < l.length := List.length_pos.mpr hl
      have hdrop := ih (l.drop B) (by simp only [List.length_drop]; omega)
      simp only [List.length_cons, hdrop, List.length_drop]
      have hsplit : l.length + B - 1 = (l.length - 1) + B := by omega
      rw [hsplit, Nat.add_div_right _ hB]
      rcases Nat.lt_or_ge l.length B with hc | hc
      · have e1 : l.length - B + B - 1 = B - 1 := by omega
        have e2 : (B - 1) / B = 0 := Nat.div_eq_of_lt (by omega)
        have e3 : (l.length - 1) / B = 0 := Nat.div_eq_of_lt (by omega)
        rw [e1, e2, e3]
      · have e1 : l.length - B + B - 1 = l.length - 1 := by omega
        rw [e1]

/-- The sequential body of the multi-batch loop in `skyflow-client.js`
(lines 111-123, 214-226, 364-376): process batches in order, appending each
the `data` and non-null `errors` of each successful batch; a throwing batch aborts the
whole loop with that error. -/
def processBatches (invoke : List ρ → Except String (BatchResult α ε)) :
    List (List ρ) → Except String (List α × List ε)
  | [] => Except.ok ([], [])
  | b :: bs =>
    match invoke b with
    | Except.error e => Except.error e
    | Except.ok r =>
      match processBatches invoke bs with
      | Except.error e => Except.error e
      | Except.ok (ds, es) => Except.ok (r.data ++ ds, errsToList r.errors ++ es)

/-- The sequence of arguments actually passed to the per-batch invocation by
the loop: batches up to and including the first one whose invocation throws
(later batches are never invoked). -/
def callTrace (invoke : List ρ → Except String (BatchResult α ε)) :
    List (List ρ) → List (List ρ)
  | [] => []
  | b :: bs =>
    match invoke b with
    | Except.error _ => [b]
    | Except.ok _ => b :: callTrace invoke bs

/-- The batched dispatch shared by `SkyflowClient.tokenize` (lines 88-129),
`SkyflowClient.detokenize` (lines 191-232) and `SkyflowClient.tokenizeByot`
(lines 342-382): one direct invocation when the input fits in a single
batch, otherwise chunk, invoke per chunk in order, and reassemble with
`errors: errors.length > 0 ? errors : null`. -/
def dispatch (B : Nat) (invoke : List ρ → Except String (BatchResult α ε))
    (items : List ρ) : Except String (BatchResult α ε) :=
  if items.length ≤ B then invoke items
  else
    match processBatches invoke (chunksOf B items) with
    | Except.error e => Except.error e
    | Except.ok (ds, es) =>
      Except.ok ⟨ds, if es.isEmpty then none else some es⟩

/-- The batches the dispatch actually hands to the backend, in order. -/
def dispatchTrace (B : Nat) (invoke : List ρ → Except String (BatchResult α ε))
    (items : List ρ) : List (List ρ) :=
  if items.length ≤ B then [items] else callTrace invoke (chunksOf B items)

theorem processBatches_ok (invoke : List ρ → Except String (BatchResult α ε))
    (f : List ρ → BatchResult α ε) :
    ∀ bs : List (List ρ), (∀ c ∈ bs, invoke c = Except.ok (f c)) →
      processBatches invoke bs =
        Except.ok ((bs.map fun c => (f c).data).flatten,
                   (bs.map fun c => errsToList (f c).errors).flatten) := by
  intro bs
  induction bs with
  | nil => intro _; simp [processBatches]
  | cons b rest ih =>
    intro h
    have hb : invoke b = Except.ok (f b) := h b (List.mem_cons_self b rest)
    have hrest := ih fun c hc => h c (List.mem_cons_of_mem b hc)
    simp [processBatches, hb, hrest]

theorem callTrace_ok (invoke : List ρ → Except String (BatchResult α ε))
    (f : List ρ → BatchResult α ε) :
    ∀ bs : List (List ρ), (∀ c ∈ bs, invoke c = Except.ok (f c)) →
      callTrace invoke bs = bs := by
  intro bs
  induction bs with
  | nil => intro _; rfl
  | cons b rest ih =>
    intro h
    have hb : invoke b = Except.ok (f b) := h b (List.mem_cons_self b rest)
    have hrest := ih fun c hc => h c (List.mem_cons_of_mem b hc)
    simp [callTrace, hb, hrest]

theorem dispatch_single (B : Nat)
    (invoke : List ρ → Except String (BatchResult α ε)) (items : List ρ)
    (hle : items.length ≤ B) :
    dispatch B invoke items = invoke items ∧
      dispatchTrace B invoke items = [items] := by
  constructor
  · simp [dispatch, hle]
  · simp [dispatchTrace, hle]

theorem dispatch_multi (B : Nat)
    (invoke : List ρ → Except String (BatchResult α ε))
    (f : List ρ → BatchResult α ε) (items : List ρ)
    (hgt : B < items.length)
    (hok : ∀ c ∈ chunksOf B items, invoke c = Except.ok (f c)) :
    dispatch B invoke items =
      Except.ok ⟨((chunksOf B items).map fun c => (f c).data).flatten,
        if (((chunksOf B items).map fun c => errsToList (f c).errors).flatten).isEmpty
        then none
        else some (((chunksOf B items).map fun c => errsToList (f c).errors).flatten)⟩ := by
  have hnle : ¬ items.length ≤ B := Nat.not_le.mpr hgt
  simp only [dispatch, hnle, if_false]
  rw [processBatches_ok invoke f (chunksOf B items) hok]

/-- Claim C1: for batch size `B > 0`, the batched dispatch shared by
tokenize, tokenize-BYOT and detokenize invokes the backend exactly once on
the whole list when `N ≤ B` and returns the result of that invocation unchanged;
when `N > B` it invokes the backend exactly `⌈N / B⌉` times on the
consecutive chunks of at most `B` items, in input order, and returns the
concatenation of the per-chunk data (and errors) lists in chunk order; in
particular, when each batch maps items pointwise, output position `i` is
the image of input item `i`. -/
theorem claim_C1 (B : Nat) (invoke : List ρ → Except String (BatchResult α ε))
    (f : List ρ → BatchResult α ε) (items : List ρ)
    (hB : 0 < B)
    (hok : ∀ c ∈ chunksOf B items, invoke c = Except.ok (f c)) :
    (items.length ≤ B →
      dispatch B invoke items = invoke items ∧
      dispatchTrace B invoke items = [items]) ∧
    (B < items.length →
      dispatchTrace B invoke items = chunksOf B items ∧
      (chunksOf B items).length = (items.length + B - 1) / B ∧
      (chunksOf B items).flatten = items ∧
      (∀ c ∈ chunksOf B items, c.length ≤ B) ∧
      dispatch B invoke items =
        Except.ok ⟨((chunksOf B items).map fun c => (f c).data).flatten,
          if (((chunksOf B items).map fun c => errsToList (f c).errors).flatten).isEmpty
          then none
          else some (((chunksOf B items).map fun c => errsToList (f c).errors).flatten)⟩) ∧
    (∀ (invoke2 : List ρ → Except String (BatchResult α ε)) (g : ρ → α),
      (∀ c : List ρ, invoke2 c = Except.ok ⟨c.map g, none⟩) →
      dispatch B invoke2 items = Except.ok ⟨items.map g, none⟩) := by
  refine ⟨fun hle => dispatch_single B invoke items hle, fun hgt => ?_, ?_⟩
  · refine ⟨?_, ?_, ?_, ?_, ?_⟩
    · have hnle : ¬ items.length ≤ B := Nat.not_le.mpr hgt
      simp only [dispatchTrace, hnle, if_false]
      exact callTrace_ok invoke f (chunksOf B items) hok
    · exact chunksOf_count B hB items.length items le_rfl
    · exact chunksOf_flatten B hB items.length items le_rfl
    · exact chunksOf_length_le B hB items.length items le_rfl
    · exact dispatch_multi B invoke f items hgt hok
  · intro invoke2 g hmap
    by_cases hle : items.length ≤ B
    · rw [(dispatch_single B invoke2 items hle).1, hmap items]
    · have hgt : B < items.length := Nat.not_le.mp hle
      have h := dispatch_multi B invoke2 (fun c => ⟨c.map g, none⟩) items hgt
        (fun c _ => hmap c)
      rw [h]
      have hflat : (chunksOf B items).flatten = items :=
        chunksOf_flatten B hB items.length items le_rfl
      have hdata : ((chunksOf B items).map fun c => List.map g c).flatten
          = List.map g items := by
        rw [← List.map_flatten, hflat]
      have herr : ((chunksOf B items).map fun _ => ([] : List ε)).flatten
          = ([] : List ε) := by
        simp
      simp [errsToList, hdata, herr]

/-- Witness for C1 at `B = 2`, `items = [1, 2, 3]`, backend mapping each
item `x` to `x + 10`. -/
theorem claim_C1_witness :
    dispatchTrace 2
        (fun c : List Nat =>
          Except.ok (⟨c.map fun x => x + 10, none⟩ : BatchResult Nat Nat))
        [1, 2, 3] = [[1, 2], [3]] ∧
    dispatch 2
        (fun c : List Nat =>
          Except.ok (⟨c.map fun x => x + 10, none⟩ : BatchResult Nat Nat))
        [1, 2, 3] = Except.ok ⟨[11, 12, 13], none⟩ := by
  have h := claim_C1 2
    (fun c : List Nat =>
      Except.ok (⟨c.map fun x => x + 10, none⟩ : BatchResult Nat Nat))
    (fun c => ⟨c.map fun x => x + 10, none⟩)
    [1, 2, 3] (by decide) (fun c _ => rfl)
  have hchunks : chunksOf 2 [1, 2, 3] = [[1, 2], [3]] := by
    simp [chunksOf]
  constructor
  · exact ((h.2.1 (by decide)).1).trans hchunks
  · exact (h.2.2 (fun c : List Nat =>
      Except.ok (⟨c.map fun x => x + 10, none⟩ : BatchResult Nat Nat))
      (fun x => x + 10) (fun c => rfl)).trans rfl

theorem processBatches_abort (invoke : List ρ → Except String (BatchResult α ε))
    (f : List ρ → BatchResult α ε) :
    ∀ (pre : List (List ρ)) (ck : List ρ) (post : List (List ρ)) (e : String),
      (∀ c ∈ pre, invoke c = Except.ok (f c)) → invoke ck = Except.error e →
      processBatches invoke (pre ++ ck :: post) = Except.error e := by
  intro pre
  induction pre with
  | nil =>
    intro ck post e _ hfail
    simp [processBatches, hfail]
  | cons b rest ih =>
    intro ck post e hpre hfail
    have hb : invoke b = Except.ok (f b) := hpre b (List.mem_cons_self b rest)
    have hrest := ih ck post e (fun c hc => hpre c (List.mem_cons_of_mem b hc)) hfail
    simp [processBatches, hb, hrest]

theorem callTrace_abort (invoke : List ρ → Except String (BatchResult α ε))
    (f : List ρ → BatchResult α ε) :
    ∀ (pre : List (List ρ)) (ck : List ρ) (post : List (List ρ)) (e : String),
      (∀ c ∈ pre, invoke c = Except.ok (f c)) → invoke ck = Except.error e →
      callTrace invoke (pre ++ ck :: post) = pre ++ [ck] := by
  intro pre
  induction pre with
  | nil =>
    intro ck post e _ hfail
    simp [callTrace, hfail]
  | cons b rest ih =>
    intro ck post e hpre hfail
    have hb : invoke b = Except.ok (f b) := hpre b (List.mem_cons_self b rest)
    have hrest := ih ck post e (fun c hc => hpre c (List.mem_cons_of_mem b hc)) hfail
    simp [callTrace, hb, hrest]

/-- Claim C2: in a multi-chunk dispatch, if the backend invocation for some
chunk rejects, the whole dispatch fails with that error (data from prior chunks
and soft errors are not returned) and the chunks after the failing one are
never invoked; whereas if every chunk succeeds, soft row-level errors do
not abort the dispatch and are concatenated into the result. -/
theorem claim_C2 (B : Nat) (invoke : List ρ → Except String (BatchResult α ε))
    (f : List ρ → BatchResult α ε) (items : List ρ)
    (pre : List (List ρ)) (ck : List ρ) (post : List (List ρ)) (e : String)
    (hgt : B < items.length)
    (hchunks : chunksOf B items = pre ++ ck :: post)
    (hpre : ∀ c ∈ pre, invoke c = Except.ok (f c))
    (hfail : invoke ck = Except.error e) :
    dispatch B invoke items = Except.error e ∧
    dispatchTrace B invoke items = pre ++ [ck] ∧
    (∀ (invoke2 : List ρ → Except String (BatchResult α ε))
       (f2 : List ρ → BatchResult α ε),
      (∀ c ∈ chunksOf B items, invoke2 c = Except.ok (f2 c)) →
      dispatch B invoke2 items =
        Except.ok ⟨((chunksOf B items).map fun c => (f2 c).data).flatten,
          if (((chunksOf B items).map fun c => errsToList (f2 c).errors).flatten).isEmpty
          then none
          else some (((chunksOf B items).map fun c => errsToList (f2 c).errors).flatten)⟩) := by
  have hnle : ¬ items.length ≤ B := Nat.not_le.mpr hgt
  refine ⟨?_, ?_, ?_⟩
  · simp only [dispatch, hnle, if_false, hchunks]
    rw [processBatches_abort invoke f pre ck post e hpre hfail]
  · simp only [dispatchTrace, hnle, if_false, hchunks]
    exact callTrace_abort invoke f pre ck post e hpre hfail
  · intro invoke2 f2 hok2
    exact dispatch_multi B invoke2 f2 items hgt hok2

/-- Witness for C2 at `B = 2`, `items = [1, 2, 3, 4, 5, 6]`, where the
second of the three chunks rejects. -/
theorem claim_C2_witness :
    dispatch 2
        (fun c : List Nat =>
          if c = [3, 4] then Except.error "boom"
          else Except.ok (⟨c, some [7]⟩ : BatchResult Nat Nat))
        [1, 2, 3, 4, 5, 6] = Except.error "boom" ∧
    dispatchTrace 2
        (fun c : List Nat =>
          if c = [3, 4] then Except.error "boom"
          else Except.ok (⟨c, some [7]⟩ : BatchResult Nat Nat))
        [1, 2, 3, 4, 5, 6] = [[1, 2], [3, 4]] := by
  have hchunks : chunksOf 2 [1, 2, 3, 4, 5, 6] = [[1, 2], [3, 4], [5, 6]] := by
    simp [chunksOf]
  have h := claim_C2 2
    (fun c : List Nat =>
      if c = [3, 4] then Except.error "boom"
      else Except.ok (⟨c, some [7]⟩ : BatchResult Nat Nat))
    (fun c => ⟨c, some [7]⟩)
    [1, 2, 3, 4, 5, 6]
    [[1, 2]] [3, 4] [[5, 6]] "boom"
    (by decide) hchunks
    (by intro c hc; simp only [List.mem_singleton] at hc; subst hc; rfl)
    (by rfl)
  exact ⟨h.1, h.2.1⟩

/-- The effective batch size computation
`this.batching?.tokenize?.batchSize || 25` /
`this.batching?.detokenize?.batchSize || 25` from `skyflow-client.js`
(lines 90, 193, 343): a missing / `null` / `0` (falsy) configured value
falls back to 25. -/
def effBatchSize (cfg : Option Int) : Int :=
  match cfg with
  | none => 25
  | some v => if v = 0 then 25 else v

/-- Counterexample to claim C10 as stated: with a falsy configured batch
size the effective size is 25, but for an empty input list the dispatch
still performs one backend invocation (on the empty list), not
`⌈0 / 25⌉ = 0` invocations. -/
theorem claim_C10_counterexample :
    effBatchSize none = 25 ∧
    (dispatchTrace 25
        (fun c : List Nat => Except.ok (⟨c, none⟩ : BatchResult Nat Nat))
        ([] : List Nat)).length = 1 ∧
    ((List.length ([] : List Nat)) + 25 - 1) / 25 = 0 := by
  refine ⟨rfl, ?_, by decide⟩
  simp [dispatchTrace]

/-- Claim C10 (amended): whenever the configured batching value is falsy
(absent, `null`, or `0`), the effective batch size is the positive value 25
— in particular a batch size of 0 is never used for splitting — and the
dispatch terminates after `max 1 ⌈N / 25⌉` backend invocations (an empty
input still performs one invocation; for `N ≥ 1` this is exactly
`⌈N / 25⌉`). -/
theorem claim_C10 (cfg : Option Int) (hfalsy : cfg = none ∨ cfg = some 0)
    (invoke : List ρ → Except String (BatchResult α ε))
    (f : List ρ → BatchResult α ε) (items : List ρ)
    (hok : ∀ c ∈ chunksOf 25 items, invoke c = Except.ok (f c)) :
    effBatchSize cfg = 25 ∧
    (0 : Int) < effBatchSize cfg ∧
    (∀ cfg2 : Option Int, effBatchSize cfg2 ≠ 0) ∧
    (dispatchTrace (effBatchSize cfg).toNat invoke items).length =
      max 1 ((items.length + 25 - 1) / 25) := by
  have h25 : effBatchSize cfg = 25 := by
    rcases hfalsy with h | h <;> subst h <;> rfl
  refine ⟨h25, by rw [h25]; omega, ?_, ?_⟩
  · intro cfg2
    match cfg2 with
    | none => simp [effBatchSize]
    | some v =>
      by_cases hv : v = 0
      · subst hv; simp [effBatchSize]
      · simp [effBatchSize, hv]
  · rw [h25]
    show (dispatchTrace 25 invoke items).length = max 1 ((items.length + 25 - 1) / 25)
    by_cases hle : items.length ≤ 25
    · rw [(dispatch_single 25 invoke items hle).2]
      have hlt : (items.length + 25 - 1) / 25 < 2 :=
        (Nat.div_lt_iff_lt_mul (by omega)).mpr (by omega)
      simp only [List.length_singleton]
      omega
    · have hgt : 25 < items.length := Nat.not_le.mp hle
      have hnle : ¬ items.length ≤ 25 := hle
      simp only [dispatchTrace, hnle, if_false]
      rw [callTrace_ok invoke f (chunksOf 25 items) hok]
      rw [chunksOf_count 25 (by omega) items.length items le_rfl]
      have hge : 2 ≤ (items.length + 25 - 1) / 25 :=
        (Nat.le_div_iff_mul_le (by omega)).mpr (by omega)
      omega

/-- Witness for C10 at configured batch size `0` and a three-item input:
the effective size is 25 and exactly one backend invocation happens. -/
theorem claim_C10_witness :
    effBatchSize (some 0) = 25 ∧
    (dispatchTrace (effBatchSize (some 0)).toNat
        (fun c : List Nat => Except.ok (⟨c, none⟩ : BatchResult Nat Nat))
        [1, 2, 3]).length = 1 := by
  have h := claim_C10 (some 0) (Or.inr rfl)
    (fun c : List Nat => Except.ok (⟨c, none⟩ : BatchResult Nat Nat))
    (fun c => ⟨c, none⟩) [1, 2, 3] (fun c _ => rfl)
  refine ⟨h.1, ?_⟩
  rw [h.2.2.2]
  decide

/-- The JavaScript property access `record[columnName]` on a backend
response record, `undefined` (`none`) when the column is absent. -/
def lookupKey (col : String) (r : List (String × String)) : Option String :=
  (r.find? fun kv => kv.1 = col).map fun kv => kv.2

/-- The re-zipping step
`rowNumbers.map((rowNum, index) => [rowNum, results[index]])` of
`snowflake-handler.js` (lines 169 and 192): each original row number, in
its original position, is paired with the result at the same index
(`undefined`, i.e. `none`, when the results array is shorter). -/
def attachResults (results : List β) : Nat → List Int → List (Int × Option β)
  | _, [] => []
  | i, rn :: rest => (rn, results[i]?) :: attachResults results (i + 1) rest

/-- `handleTokenize` from `snowflake-handler.js` (lines 143-170), with the
backend tokenize dispatch abstracted as the `data` array it returns
(`tokData`): drop row numbers, build single-column records, tokenize, read
the column back, and re-zip with the original row numbers. -/
def handleTokenizeRows
    (tokData : List (List (String × String)) → List (List (String × String)))
    (col : String) (rows : List (Int × String)) :
    List (Int × Option (Option String)) :=
  let rowNumbers := rows.map Prod.fst
  let values := rows.map Prod.snd
  let records := values.map fun v => [(col, v)]
  let tokens := (tokData records).map fun r => lookupKey col r
  attachResults tokens 0 rowNumbers

/-- One record of the detokenize response `data` array: a token and its
detokenized value. -/
structure DetokField where
  token : String
  value : String
deriving Repr, DecidableEq

/-- `handleDetokenize` from `snowflake-handler.js` (lines 176-193), with
the backend detokenize dispatch abstracted as the `data` array it returns
(`detokData`). -/
def handleDetokenizeRows (detokData : List String → List DetokField)
    (rows : List (Int × String)) : List (Int × Option String) :=
  let rowNumbers := rows.map Prod.fst
  let tokens := rows.map Prod.snd
  let values := (detokData tokens).map DetokField.value
  attachResults values 0 rowNumbers

theorem attachResults_zip (results : List β) :
    ∀ (rns : List Int) (i : Nat), i + rns.length ≤ results.length →
      attachResults results i rns = rns.zip ((results.drop i).map some) := by
  intro rns
  induction rns with
  | nil => intro i h; simp [attachResults]
  | cons rn rest ih =>
    intro i h
    simp only [List.length_cons] at h
    have hi : i < results.length := by omega
    simp only [attachResults]
    rw [List.drop_eq_getElem_cons hi]
    simp only [List.map_cons, List.zip_cons_cons]
    rw [List.getElem?_eq_getElem hi]
    congr 1
    exact ih (i + 1) (by omega)

/-- Claim C3: for the row-indexed (Snowflake) transport, assuming the
dispatched operation returns one output per input in input order, the
adapter output pairs each original row number, in its original position,
with the operation output for the value at the same position — for both
the tokenize and the detokenize handler. -/
theorem claim_C3
    (tokData : List (List (String × String)) → List (List (String × String)))
    (detokData : List String → List DetokField)
    (col : String) (rows : List (Int × String))
    (h1 : (tokData ((rows.map Prod.snd).map fun v => [(col, v)])).length
            = rows.length)
    (h2 : (detokData (rows.map Prod.snd)).length = rows.length) :
    handleTokenizeRows tokData col rows =
      (rows.map Prod.fst).zip
        (((tokData ((rows.map Prod.snd).map fun v => [(col, v)])).map
            fun r => lookupKey col r).map some) ∧
    (handleTokenizeRows tokData col rows).map Prod.fst = rows.map Prod.fst ∧
    handleDetokenizeRows detokData rows =
      (rows.map Prod.fst).zip
        (((detokData (rows.map Prod.snd)).map DetokField.value).map some) ∧
    (handleDetokenizeRows detokData rows).map Prod.fst = rows.map Prod.fst := by
  have htok : handleTokenizeRows tokData col rows =
      (rows.map Prod.fst).zip
        (((tokData ((rows.map Prod.snd).map fun v => [(col, v)])).map
            fun r => lookupKey col r).map some) := by
    show attachResults _ 0 (rows.map Prod.fst) = _
    rw [attachResults_zip _ (rows.map Prod.fst) 0
      (by simp only [List.map_map] at h1; simp [h1])]
    simp
  have hdetok : handleDetokenizeRows detokData rows =
      (rows.map Prod.fst).zip
        (((detokData (rows.map Prod.snd)).map DetokField.value).map some) := by
    show attachResults _ 0 (rows.map Prod.fst) = _
    rw [attachResults_zip _ (rows.map Prod.fst) 0 (by simp [h2])]
    simp
  refine ⟨htok, ?_, hdetok, ?_⟩
  · rw [htok]
    exact List.map_fst_zip _ _
      (by simp only [List.map_map] at h1; simp [h1])
  · rw [hdetok]
    exact List.map_fst_zip _ _ (by simp [h2])

/-- Witness for C3 on the out-of-order, non-contiguous row numbers
`[5, 2]`. -/
theorem claim_C3_witness :
    handleTokenizeRows
        (fun rs => rs.map fun r => r.map fun kv => (kv.1, "tok-" ++ kv.2))
        "email" [(5, "a"), (2, "b")]
      = [(5, some (some "tok-a")), (2, some (some "tok-b"))] ∧
    handleDetokenizeRows
        (fun ts => ts.map fun t => ⟨t, "val-" ++ t⟩)
        [(5, "a"), (2, "b")]
      = [(5, some "val-a"), (2, some "val-b")] := by
  have h := claim_C3
    (fun rs => rs.map fun r => r.map fun kv => (kv.1, "tok-" ++ kv.2))
    (fun ts => ts.map fun t => ⟨t, "val-" ++ t⟩)
    "email" [(5, "a"), (2, "b")] (by rfl) (by rfl)
  refine ⟨h.1.trans ?_, h.2.2.1.trans ?_⟩ <;> rfl

/-- The four members of the backend SDK redaction enum consumed by
`_detokenizeBatch` (the same four names the validator recognizes). -/
inductive RedactionType
  | PLAIN_TEXT
  | MASKED
  | REDACTED
  | DEFAULT
deriving Repr, DecidableEq

/-- The enum lookup `RedactionType[redactionType]`: the member named by the
string, `undefined` (`none`) for any other name. -/
def redactionLookup (s : String) : Option RedactionType :=
  if s = "PLAIN_TEXT" then some RedactionType.PLAIN_TEXT
  else if s = "MASKED" then some RedactionType.MASKED
  else if s = "REDACTED" then some RedactionType.REDACTED
  else if s = "DEFAULT" then some RedactionType.DEFAULT
  else none

/-- One element of the `detokenizeData` array handed to the backend
`DetokenizeRequest`: a token plus an optional redaction field. -/
structure DetokRequestItem where
  token : String
  redactionType : Option RedactionType
deriving Repr, DecidableEq

/-- The request construction of `_detokenizeBatch` in `skyflow-client.js`
(lines 243-252): `data = { token }`, and only when `redactionType` is
truthy (a present, non-empty string), `data.redactionType =
RedactionType[redactionType] || RedactionType.PLAIN_TEXT`. -/
def buildDetokenizeData (rt : Option String) (tokens : List String) :
    List DetokRequestItem :=
  tokens.map fun t =>
    match rt with
    | none => { token := t, redactionType := none }
    | some s =>
      if s = "" then { token := t, redactionType := none }
      else
        { token := t,
          redactionType := some ((redactionLookup s).getD RedactionType.PLAIN_TEXT) }

/-- Claim C4: when the caller supplies no redaction mode, no per-token
request carries a `redactionType` field; when the caller supplies one
(a non-empty string), every per-token request carries one.  Tokens are
passed through unchanged. -/
theorem claim_C4 (tokens : List String) :
    (∀ req ∈ buildDetokenizeData none tokens, req.redactionType = none) ∧
    (∀ s : String, s ≠ "" →
      ∀ req ∈ buildDetokenizeData (some s) tokens,
        req.redactionType.isSome = true) ∧
    (buildDetokenizeData none tokens).map DetokRequestItem.token = tokens := by
  refine ⟨?_, ?_, ?_⟩
  · intro req hreq
    simp only [buildDetokenizeData, List.mem_map] at hreq
    obtain ⟨t, _, rfl⟩ := hreq
    rfl
  · intro s hs req hreq
    simp only [buildDetokenizeData, List.mem_map] at hreq
    obtain ⟨t, _, rfl⟩ := hreq
    simp [hs]
  · simp only [buildDetokenizeData, List.map_map]
    exact List.map_id tokens

/-- Witness for C4 on the single token `t1`, with mode `MASKED` for the
supplied case. -/
theorem claim_C4_witness :
    (DetokRequestItem.mk "t1" none).redactionType = none ∧
    (DetokRequestItem.mk "t1" (some RedactionType.MASKED)).redactionType.isSome
      = true := by
  have h := claim_C4 ["t1"]
  exact ⟨h.1 (DetokRequestItem.mk "t1" none) (by decide),
         h.2.1 "MASKED" (by decide)
           (DetokRequestItem.mk "t1" (some RedactionType.MASKED)) (by decide)⟩

/-- Claim C9: at the `SkyflowClient.detokenize` interface, a truthy
redaction string that is not one of the four recognized enum names is
neither dropped nor rejected: every per-token request gets the
`PLAIN_TEXT` redaction mode attached. -/
theorem claim_C9 (tokens : List String) (s : String) (hne : s ≠ "")
    (hnot : s ∉ ["PLAIN_TEXT", "MASKED", "REDACTED", "DEFAULT"]) :
    ∀ req ∈ buildDetokenizeData (some s) tokens,
      req.redactionType = some RedactionType.PLAIN_TEXT := by
  simp only [List.mem_cons, List.not_mem_nil, not_or, or_false] at hnot
  obtain ⟨h1, h2, h3, h4⟩ := hnot
  intro req hreq
  simp only [buildDetokenizeData, List.mem_map] at hreq
  obtain ⟨t, _, rfl⟩ := hreq
  simp [hne, redactionLookup, h1, h2, h3, h4]

/-- Witness for C9 with the unrecognized mode string `bogus`. -/
theorem claim_C9_witness :
    (DetokRequestItem.mk "t1" (some RedactionType.PLAIN_TEXT)).redactionType
      = some RedactionType.PLAIN_TEXT := by
  exact claim_C9 ["t1"] "bogus" (by decide) (by decide)
    (DetokRequestItem.mk "t1" (some RedactionType.PLAIN_TEXT)) (by decide)

/-- The mutable state behind `_getClient`: the `this.clients` cache keyed
by `clusterId:vaultId:env`, plus a construction counter so that distinct
constructions yield distinct handles (a handle is its construction
number). -/
structure CacheState where
  clients : List (String × Nat)
  nextId : Nat
deriving Repr, DecidableEq

/-- The cache key `clusterId:vaultId:env` (`skyflow-client.js` line 39). -/
def clientKeyOf (clusterId vaultId env : String) : String :=
  clusterId ++ ":" ++ vaultId ++ ":" ++ env

/-- The message thrown for an unrecognized environment
(`skyflow-client.js` line 36). -/
def invalidEnvMsg (env : String) : String :=
  "Invalid environment: " ++ env ++ ". Must be one of: SANDBOX, PROD"

/-- `_getClient` from `skyflow-client.js` (lines 32-71), as explicit state
passing: validate the environment, then return the cached handle for the
key of the triple, constructing and caching a fresh one on a miss. -/
def getClient (clusterId vaultId env : String) (s : CacheState) :
    Except String (Nat × CacheState) :=
  if env ∈ ["SANDBOX", "PROD"] then
    match s.clients.find? fun kv => kv.1 = clientKeyOf clusterId vaultId env with
    | some kv => Except.ok (kv.2, s)
    | none =>
      Except.ok (s.nextId,
        ⟨(clientKeyOf clusterId vaultId env, s.nextId) :: s.clients,
          s.nextId + 1⟩)
  else Except.error (invalidEnvMsg env)

/-- Claim C5: resolving the same (cluster, vault, environment) triple a
second time returns the very same handle with the cache state unchanged
(so construction happens at most once per distinct triple), and any
environment other than SANDBOX and PROD makes resolution fail with an
error, constructing and caching nothing (the state is not even returned). -/
theorem claim_C5 (c v e : String) (s s2 : CacheState) (h : Nat)
    (hok : getClient c v e s = Except.ok (h, s2)) :
    getClient c v e s2 = Except.ok (h, s2) ∧
    (∀ (c2 v2 e2 : String) (t : CacheState),
      e2 ≠ "SANDBOX" → e2 ≠ "PROD" →
      getClient c2 v2 e2 t = Except.error (invalidEnvMsg e2)) := by
  constructor
  · have henv : e ∈ ["SANDBOX", "PROD"] := by
      by_contra hne
      rw [getClient, if_neg hne] at hok
      exact Except.noConfusion hok
    rw [getClient, if_pos henv] at hok
    rw [getClient, if_pos henv]
    cases hfind : s.clients.find? fun kv => kv.1 = clientKeyOf c v e with
    | some kv =>
      rw [hfind] at hok
      have hinj := Except.ok.inj hok
      have h1 : kv.2 = h := congrArg Prod.fst hinj
      have h2 : s = s2 := congrArg Prod.snd hinj
      subst h2
      rw [hfind]
      exact hok
    | none =>
      rw [hfind] at hok
      have hinj := Except.ok.inj hok
      have h1 : s.nextId = h := congrArg Prod.fst hinj
      have h2 : (⟨(clientKeyOf c v e, s.nextId) :: s.clients, s.nextId + 1⟩
          : CacheState) = s2 := congrArg Prod.snd hinj
      subst h2
      rw [List.find?_cons_of_pos _ (by simp), h1]
  · intro c2 v2 e2 t h1 h2
    rw [getClient, if_neg (by simp [h1, h2])]

/-- Witness for C5: a fresh cache, the triple (`c`, `v`, `PROD`), and the
invalid environment `DEV`. -/
theorem claim_C5_witness :
    getClient "c" "v" "PROD" ⟨[("c:v:PROD", 0)], 1⟩
      = Except.ok (0, ⟨[("c:v:PROD", 0)], 1⟩) ∧
    getClient "c" "v" "DEV" ⟨[], 0⟩ = Except.error (invalidEnvMsg "DEV") := by
  have h := claim_C5 "c" "v" "PROD" ⟨[], 0⟩ ⟨[("c:v:PROD", 0)], 1⟩ 0 (by rfl)
  exact ⟨h.1, h.2 "c" "v" "DEV" ⟨[], 0⟩ (by decide) (by decide)⟩

/-- One element of the `records` array of the BYOT request, as inspected by
`validateTokenizeByotRequest`: `fields` / `tokens` are `some` key-value
maps when present and of object type, `none` otherwise. -/
structure ByotRecord where
  fields : Option (List (String × String))
  tokens : Option (List (String × String))
deriving Repr, DecidableEq

/-- Lexicographic comparison of character sequences by numeric character
value, as the JavaScript default `Array.sort` compares strings. -/
def codeUnitsLe : List Char → List Char → Bool
  | [], _ => true
  | _ :: _, [] => false
  | a :: as, b :: bs =>
    if a.val < b.val then true
    else if b.val < a.val then false
    else codeUnitsLe as bs

def strLe (a b : String) : Bool := codeUnitsLe a.data b.data

/-- `Object.keys(m).sort()`: the key list, sorted lexicographically. -/
def sortedKeys (m : List (String × String)) : List String :=
  (m.map Prod.fst).insertionSort fun a b => strLe a b = true

/-- The per-record checks of `validateTokenizeByotRequest`
(`handler.js` lines 251-270), in source order: `fields` present, `tokens`
present, `fields` non-empty, `tokens` non-empty, and
comparing the comma-joined sorted key lists as strings. -/
def validateByotRecord (i : Nat) (r : ByotRecord) : Except String Unit :=
  match r.fields with
  | none =>
    Except.error ("records[" ++ toString i ++ "] must have fields object with column values")
  | some f =>
    match r.tokens with
    | none =>
      Except.error ("records[" ++ toString i ++ "] must have tokens object with custom token values")
    | some t =>
      if f.isEmpty then
        Except.error ("records[" ++ toString i ++ "].fields cannot be empty")
      else if t.isEmpty then
        Except.error ("records[" ++ toString i ++ "].tokens cannot be empty")
      else if String.intercalate "," (sortedKeys f)
          ≠ String.intercalate "," (sortedKeys t) then
        Except.error ("records[" ++ toString i ++ "] fields and tokens must have matching column names")
      else Except.ok ()

/-- The `records.forEach(...)` traversal: the error of the first failing record
aborts the validation. -/
def validateRecords : Nat → List ByotRecord → Except String Unit
  | _, [] => Except.ok ()
  | i, r :: rest =>
    match validateByotRecord i r with
    | Except.error m => Except.error m
    | Except.ok _ => validateRecords (i + 1) rest

/-- `validateTokenizeByotRequest` from `handler.js` (lines 244-271):
`records` must be a present array (`none` models absent / non-array),
non-empty, with every record passing the per-record checks. -/
def validateTokenizeByotRequest (records : Option (List ByotRecord)) :
    Except String Unit :=
  match records with
  | none => Except.error "Missing or invalid field: records (must be array)"
  | some rs =>
    if rs.isEmpty then Except.error "records array cannot be empty"
    else validateRecords 0 rs

/-- What the per-record validation actually accepts: both maps present and
non-empty, and the two sorted key lists equal once joined with commas. -/
def byotRecordOk (r : ByotRecord) : Bool :=
  match r.fields, r.tokens with
  | some f, some t =>
    !f.isEmpty && !t.isEmpty &&
      (String.intercalate "," (sortedKeys f) == String.intercalate "," (sortedKeys t))
  | _, _ => false

theorem validateByotRecord_ok (i : Nat) (r : ByotRecord) :
    validateByotRecord i r = Except.ok () ↔ byotRecordOk r = true := by
  rcases r with ⟨fo, tk⟩
  rcases fo with _ | f
  · simp [validateByotRecord, byotRecordOk]
  · rcases tk with _ | t
    · simp [validateByotRecord, byotRecordOk]
    · simp only [validateByotRecord, byotRecordOk]
      split_ifs with hf ht hj
      · simp [hf]
      · simp [ht]
      · simp [hj]
      · simp [hf, ht, not_not.mp (by exact hj)]

theorem validateRecords_ok :
    ∀ (rs : List ByotRecord) (i : Nat),
      validateRecords i rs = Except.ok () ↔ ∀ r ∈ rs, byotRecordOk r = true := by
  intro rs
  induction rs with
  | nil => intro i; simp [validateRecords]
  | cons r rest ih =>
    intro i
    simp only [validateRecords]
    cases hv : validateByotRecord i r with
    | error m =>
      have hr : ¬ byotRecordOk r = true := by
        intro hb
        have := (validateByotRecord_ok i r).mpr hb
        rw [hv] at this
        exact Except.noConfusion this
      constructor
      · intro h; exact absurd h (by simp)
      · intro h; exact absurd (h r (List.mem_cons_self r rest)) hr
    | ok u =>
      cases u
      have hr : byotRecordOk r = true := (validateByotRecord_ok i r).mp hv
      simp [List.forall_mem_cons, hr, ih (i + 1)]

/-- Counterexample to claim C6 as stated: the record with fields keys
`["a,b"]` and tokens keys `["a", "b"]` has different sorted key lists, yet
validation succeeds, because the code compares the comma-joined strings
`"a,b"` on both sides. -/
theorem claim_C6_counterexample :
    validateTokenizeByotRequest
        (some [⟨some [("a,b", "v")], some [("a", "t1"), ("b", "t2")]⟩])
      = Except.ok () ∧
    sortedKeys [("a,b", "v")] ≠ sortedKeys [("a", "t1"), ("b", "t2")] := by
  exact ⟨rfl, by decide⟩

/-- Claim C6 (amended): validation of a tokenize-with-custom-tokens
request succeeds exactly when the records array is present and non-empty
and every record has present, non-empty fields and tokens maps whose
sorted key lists are equal once joined with commas
(comma-join comparison; for keys containing no comma this coincides with
equality of the sorted key lists, but a record whose keys contain commas
can pass with different key sets); any record whose comma-joined sorted
key lists differ makes validation fail before any backend call. -/
theorem claim_C6 (records : List ByotRecord) :
    (validateTokenizeByotRequest (some records) = Except.ok () ↔
      records ≠ [] ∧ ∀ r ∈ records, byotRecordOk r = true) ∧
    validateTokenizeByotRequest none ≠ Except.ok () := by
  constructor
  · simp only [validateTokenizeByotRequest]
    by_cases he : records.isEmpty
    · rw [List.isEmpty_iff] at he
      subst he
      simp
    · have hne : records ≠ [] := by
        intro h0; subst h0; exact he rfl
      rw [if_neg (by simpa [List.isEmpty_iff] using hne)]
      simp [validateRecords_ok records 0, hne]
  · simp [validateTokenizeByotRequest]

/-- Witness for C6: a well-formed single-record request passes
validation. -/
theorem claim_C6_witness :
    validateTokenizeByotRequest
        (some [⟨some [("email", "v")], some [("email", "t")]⟩])
      = Except.ok () := by
  exact (claim_C6 [⟨some [("email", "v")], some [("email", "t")]⟩]).1.mpr
    ⟨by decide, by
      intro r hr
      simp only [List.mem_singleton] at hr
      subst hr
      decide⟩

/-- The backend query response consumed by `SkyflowClient.query`: a
`fields` array of rows (possibly `null`) and an `errors` array (possibly
`null`). -/
structure QueryResponse (V ε : Type) where
  fields : Option (List (List (String × V)))
  errors : Option (List ε)
deriving Repr, DecidableEq

/-- The rest-destructuring `const { tokenizedData, ...cleanRecord } = record`
of `skyflow-client.js` (line 305): the row without its `tokenizedData`
entry, all other entries unchanged and in order. -/
def stripTokenizedData (r : List (String × V)) : List (String × V) :=
  r.filter fun kv => kv.1 ≠ "tokenizedData"

/-- The response shaping of `SkyflowClient.query` (lines 294-313):
`(response.fields || []).map(...)` with `tokenizedData` removed from each
row, errors passed through. -/
def queryModel (resp : QueryResponse V ε) : BatchResult (List (String × V)) ε :=
  { data := (resp.fields.getD []).map stripTokenizedData,
    errors := resp.errors }

/-- Claim C7: every row returned by the query operation is the
corresponding backend row with the `tokenizedData` field removed — the key
is absent from every output row, every other key-value pair is present
unchanged, and row order (and count) is preserved. -/
theorem claim_C7 (resp : QueryResponse V ε) (i : Nat)
    (row : List (String × V))
    (hrow : (resp.fields.getD [])[i]? = some row) :
    (queryModel resp).data.length = (resp.fields.getD []).length ∧
    (queryModel resp).data[i]? = some (stripTokenizedData row) ∧
    (∀ kv ∈ stripTokenizedData row, kv.1 ≠ "tokenizedData" ∧ kv ∈ row) ∧
    (∀ kv ∈ row, kv.1 ≠ "tokenizedData" → kv ∈ stripTokenizedData row) ∧
    (queryModel resp).errors = resp.errors := by
  refine ⟨by simp [queryModel], ?_, ?_, ?_, rfl⟩
  · simp [queryModel, List.getElem?_map, hrow]
  · intro kv hkv
    rw [stripTokenizedData, List.mem_filter] at hkv
    exact ⟨by simpa using hkv.2, hkv.1⟩
  · intro kv hkv hne
    rw [stripTokenizedData, List.mem_filter]
    exact ⟨hkv, by simpa using hne⟩

/-- Witness for C7 on a one-row response carrying a `tokenizedData` entry
and one soft error. -/
theorem claim_C7_witness :
    (queryModel (⟨some [[("tokenizedData", "x"), ("name", "n")]],
        some ["e1"]⟩ : QueryResponse String String)).data[0]?
      = some [("name", "n")] ∧
    (queryModel (⟨some [[("tokenizedData", "x"), ("name", "n")]],
        some ["e1"]⟩ : QueryResponse String String)).errors = some ["e1"] := by
  have h := claim_C7
    (⟨some [[("tokenizedData", "x"), ("name", "n")]],
        some ["e1"]⟩ : QueryResponse String String)
    0 [("tokenizedData", "x"), ("name", "n")] (by rfl)
  exact ⟨h.2.1.trans (by rfl), h.2.2.2.2⟩

/-- JavaScript `toLowerCase()` on a header name: lower-case each
character. -/
def lowerStr (s : String) : String := String.mk (s.data.map Char.toLower)

/-- `getHeader` from `utils/headers.js` (lines 20-28): `none` when
`headers` is not an object; otherwise
`Object.keys(headers).find(k => k.toLowerCase() === name.toLowerCase())`
followed by `key ? headers[key] : null` — so a matching key that is the
empty string (falsy) yields `null`. -/
def getHeader (headers : Option (List (String × String))) (name : String) :
    Option String :=
  match headers with
  | none => none
  | some hs =>
    match hs.find? fun kv => lowerStr kv.1 = lowerStr name with
    | none => none
    | some kv => if kv.1 = "" then none else some kv.2

/-- Counterexample to claim C8 as stated: with headers `{"": "v"}` and
name `""`, a key whose lower-casing equals the lower-cased name exists,
yet `getHeader` returns `null`, because the found key is falsy. -/
theorem claim_C8_counterexample :
    (∃ kv ∈ [("", "v")], lowerStr (kv : String × String).1 = lowerStr "") ∧
    getHeader (some [("", "v")]) "" = none := by
  exact ⟨⟨("", "v"), by decide, rfl⟩, rfl⟩

/-- Claim C8 (amended): `getHeader` is pure and case-insensitive — two
names with the same lower-casing give the same result — returns `null`
when `headers` is not an object or no key matches case-insensitively, and
returns the value of the first case-insensitively matching key provided
that key is non-empty; a matching empty-string key yields `null`. -/
theorem claim_C8 (headers : Option (List (String × String)))
    (hs : List (String × String)) (name n1 n2 : String)
    (kv : String × String) :
    (lowerStr n1 = lowerStr n2 → getHeader headers n1 = getHeader headers n2) ∧
    getHeader none name = none ∧
    ((hs.find? fun p => lowerStr p.1 = lowerStr name) = none →
      getHeader (some hs) name = none) ∧
    ((hs.find? fun p => lowerStr p.1 = lowerStr name) = some kv → kv.1 ≠ "" →
      getHeader (some hs) name = some kv.2) ∧
    ((hs.find? fun p => lowerStr p.1 = lowerStr name) = some kv → kv.1 = "" →
      getHeader (some hs) name = none) := by
  refine ⟨?_, rfl, ?_, ?_, ?_⟩
  · intro h
    cases headers with
    | none => rfl
    | some l => simp only [getHeader, h]
  · intro hfind
    simp only [getHeader, hfind]
  · intro hfind hne
    simp only [getHeader, hfind, if_neg hne]
  · intro hfind hemp
    simp only [getHeader, hfind, if_pos hemp]

/-- Witness for C8: mixed-case lookup on `{"X-Op": "tok"}`. -/
theorem claim_C8_witness :
    getHeader (some [("X-Op", "tok")]) "x-op" = some "tok" ∧
    getHeader none "x-op" = none ∧
    getHeader (some [("X-Op", "tok")]) "X-OP"
      = getHeader (some [("X-Op", "tok")]) "x-op" := by
  have h := claim_C8 (some [("X-Op", "tok")]) [("X-Op", "tok")]
    "x-op" "X-OP" "x-op" ("X-Op", "tok")
  exact ⟨h.2.2.2.1 (by rfl) (by decide), h.2.1, h.1 (by rfl)⟩
